import Mathlib

/-!
Shallow embedding of the BASIC interpreter (src/src of the repository):
the nom parser combinators it uses, the command/expression grammars, the
linked-list program structure, and the execution engine, together with
theorems settling the specification claims.

Rust strings are modelled as `List Char` on the parser side and as Lean
`String` in the data model.  A nom `IResult` is modelled by `PRes`:
`ok rest value`, `error` (nom `Err::Error`; the sources never produce
`Err::Failure`), or `incomplete` (nom `Err::Incomplete`, produced only by
the streaming `one_of` used in the expression grammar).
-/

set_option maxHeartbeats 1000000

inductive PRes (α : Type) where
  | ok (rest : List Char) (val : α)
  | error
  | incomplete
  deriving DecidableEq, Repr

def Parser (α : Type) : Type := List Char → PRes α

/-- nom `bytes::complete::tag`: consume the exact token `t`. -/
def ptag (t : List Char) : Parser (List Char) := fun i =>
  if t.isPrefixOf i then .ok (i.drop t.length) t else .error

/-- nom `combinator::map`. -/
def pmap {α β : Type} (p : Parser α) (f : α → β) : Parser β := fun i =>
  match p i with
  | .ok r a => .ok r (f a)
  | .error => .error
  | .incomplete => .incomplete

/-- nom `combinator::value`. -/
def pvalue {α β : Type} (v : β) (p : Parser α) : Parser β :=
  pmap p (fun _ => v)

/-- nom `branch::alt` for two alternatives: the second parser runs only
when the first fails with a recoverable `error`; `incomplete` propagates. -/
def palt2 {α : Type} (p q : Parser α) : Parser α := fun i =>
  match p i with
  | .error => q i
  | r => r

/-- nom `branch::alt` for three alternatives. -/
def palt3 {α : Type} (p q s : Parser α) : Parser α :=
  palt2 p (palt2 q s)

/-- nom `branch::alt` for four alternatives. -/
def palt4 {α : Type} (p q s t : Parser α) : Parser α :=
  palt2 p (palt2 q (palt2 s t))

/-- nom `combinator::not`: succeeds consuming nothing iff `p` errors. -/
def pnot {α : Type} (p : Parser α) : Parser Unit := fun i =>
  match p i with
  | .ok _ _ => .error
  | .error => .ok i ()
  | .incomplete => .incomplete

/-- nom `combinator::verify`. -/
def pverify {α : Type} (p : Parser α) (pred : α → Bool) : Parser α := fun i =>
  match p i with
  | .ok r a => if pred a then .ok r a else .error
  | .error => .error
  | .incomplete => .incomplete

/-- nom `sequence::preceded`. -/
def ppreceded {α β : Type} (p : Parser α) (q : Parser β) : Parser β := fun i =>
  match p i with
  | .ok r _ => q r
  | .error => .error
  | .incomplete => .incomplete

/-- nom `sequence::terminated`. -/
def pterminated {α β : Type} (p : Parser α) (q : Parser β) : Parser α := fun i =>
  match p i with
  | .ok r a =>
    match q r with
    | .ok r2 _ => .ok r2 a
    | .error => .error
    | .incomplete => .incomplete
  | .error => .error
  | .incomplete => .incomplete

/-- nom `sequence::delimited`. -/
def pdelimited {α β γ : Type} (p : Parser α) (q : Parser β) (s : Parser γ) :
    Parser β := fun i =>
  match p i with
  | .ok r _ =>
    match q r with
    | .ok r2 b =>
      match s r2 with
      | .ok r3 _ => .ok r3 b
      | .error => .error
      | .incomplete => .incomplete
    | .error => .error
    | .incomplete => .incomplete
  | .error => .error
  | .incomplete => .incomplete

/-- nom `character::complete::anychar`. -/
def panychar : Parser Char := fun i =>
  match i with
  | [] => .error
  | c :: r => .ok r c

/-- nom `character::complete::none_of`: one character not in `l`. -/
def pnoneOf (l : List Char) : Parser Char := fun i =>
  match i with
  | [] => .error
  | c :: r => if l.contains c then .error else .ok r c

/-- nom `character::streaming::one_of`: one character from `l`; on empty
input it reports `incomplete` (the streaming behaviour), on a wrong
character a recoverable `error`. -/
def poneOfStreaming (l : List Char) : Parser Char := fun i =>
  match i with
  | [] => .incomplete
  | c :: r => if l.contains c then .ok r c else .error

/-- nom `bytes::complete::take_while`: longest (possibly empty) prefix. -/
def ptakeWhile (f : Char → Bool) : Parser (List Char) := fun i =>
  .ok (i.dropWhile f) (i.takeWhile f)

/-- nom's ASCII digit test used by `digit1` and the integer parsers. -/
def nomIsDigit (c : Char) : Bool := c.isDigit

/-- nom's ASCII alphanumeric test used by `alphanumeric1`. -/
def nomIsAlphanumeric (c : Char) : Bool := c.isAlpha || c.isDigit

/-- nom `character::complete::digit1`: one or more ASCII digits. -/
def pdigit1 : Parser (List Char) := fun i =>
  if (i.takeWhile nomIsDigit).isEmpty then .error
  else .ok (i.drop (i.takeWhile nomIsDigit).length) (i.takeWhile nomIsDigit)

/-- nom `character::complete::alphanumeric1`: one or more ASCII
alphanumeric characters. -/
def palphanumeric1 : Parser (List Char) := fun i =>
  if (i.takeWhile nomIsAlphanumeric).isEmpty then .error
  else .ok (i.drop (i.takeWhile nomIsAlphanumeric).length)
    (i.takeWhile nomIsAlphanumeric)

/-- Numeric value of a list of ASCII digits. -/
def digitsToNat : List Char → Nat → Nat
  | [], acc => acc
  | c :: r, acc => digitsToNat r (acc * 10 + (c.toNat - 48))

/-- nom `character::complete::u64`: one or more digits, no sign; the
checked accumulation errors when the value exceeds the `u64` range. -/
def ccu64 : Parser Nat := fun i =>
  if (i.takeWhile nomIsDigit).isEmpty then .error
  else if digitsToNat (i.takeWhile nomIsDigit) 0 < 2 ^ 64 then
    .ok (i.drop (i.takeWhile nomIsDigit).length)
      (digitsToNat (i.takeWhile nomIsDigit) 0)
  else .error

/-- nom `character::complete::i64`, digit-run part after the optional
sign; positive and negative checked accumulation have their own bounds. -/
def cci64core (neg : Bool) (i1 : List Char) : PRes Int :=
  if (i1.takeWhile nomIsDigit).isEmpty then .error
  else if neg then
    if digitsToNat (i1.takeWhile nomIsDigit) 0 ≤ 2 ^ 63 then
      .ok (i1.drop (i1.takeWhile nomIsDigit).length)
        (-(digitsToNat (i1.takeWhile nomIsDigit) 0 : Int))
    else .error
  else
    if digitsToNat (i1.takeWhile nomIsDigit) 0 ≤ 2 ^ 63 - 1 then
      .ok (i1.drop (i1.takeWhile nomIsDigit).length)
        ((digitsToNat (i1.takeWhile nomIsDigit) 0 : Int))
    else .error

/-- nom `character::complete::i64`: optional single sign, then digits. -/
def cci64 : Parser Int := fun i =>
  match i with
  | '+' :: r => cci64core false r
  | '-' :: r => cci64core true r
  | r => cci64core false r

/-- nom `bytes::complete::escaped_transform` loop.  `first` records
whether any input has been consumed yet: when the normal parser fails on a
non-control character before anything was consumed, nom reports an error
(`ErrorKind::EscapedTransform`); afterwards it stops successfully.  The
check `r2.length = (c :: rest).length` mirrors nom's guard against a
normal parser that consumes nothing.  The structural `fuel` bounds the
iteration count; every iteration of nom's loop consumes at least one
character for the parsers the source passes, so the `length + 1` budget
supplied by `escapedTransform` is never exhausted. -/
def escapedTransformGo (normal : Parser Char) (control : Char)
    (transform : Parser (List Char)) :
    Nat → Bool → List Char → List Char → PRes (List Char)
  | 0, _, _, _ => .error
  | fuel + 1, first, acc, r =>
    match r with
    | [] => .ok [] acc
    | c :: rest =>
      match normal (c :: rest) with
      | .ok r2 o =>
        if r2.isEmpty then .ok [] (acc ++ [o])
        else if r2.length = (c :: rest).length then .ok (c :: rest) acc
        else escapedTransformGo normal control transform fuel false (acc ++ [o]) r2
      | .incomplete => .incomplete
      | .error =>
        if c = control then
          if rest.isEmpty then .error
          else
            match transform rest with
            | .ok r2 o =>
              if r2.isEmpty then .ok [] (acc ++ o)
              else escapedTransformGo normal control transform fuel false (acc ++ o) r2
            | .error => .error
            | .incomplete => .incomplete
        else if first then .error
        else .ok (c :: rest) acc

/-- nom `bytes::complete::escaped_transform`. -/
def escapedTransform (normal : Parser Char) (control : Char)
    (transform : Parser (List Char)) : Parser (List Char) := fun i =>
  escapedTransformGo normal control transform (i.length + 1) true [] i

/-- nom `multi::separated_list0` loop after the first element.  The guard
`i2.length = i.length` mirrors nom's infinite-loop check (separator plus
element must consume input); the structural `fuel` bounds the iteration
count and, because every iteration consumes at least one character, the
`length + 1` budget supplied by `separatedList0` is never exhausted. -/
def separatedList0Go {β α : Type} (sep : Parser β) (f : Parser α) :
    Nat → List α → List Char → PRes (List α)
  | 0, _, _ => .error
  | fuel + 1, acc, i =>
    match sep i with
    | .error => .ok i acc
    | .incomplete => .incomplete
    | .ok i1 _ =>
      match f i1 with
      | .error => .ok i acc
      | .incomplete => .incomplete
      | .ok i2 o =>
        if i2.length = i.length then .error
        else separatedList0Go sep f fuel (acc ++ [o]) i2

/-- nom `multi::separated_list0`. -/
def separatedList0 {β α : Type} (sep : Parser β) (f : Parser α) :
    Parser (List α) := fun i =>
  match f i with
  | .error => .ok i []
  | .incomplete => .incomplete
  | .ok i1 o => separatedList0Go sep f (i1.length + 1) [o] i1

/-!  ## Data model (src/src/basic.rs) -/

/-- `Primitive` from basic.rs: `Int(i64)`, `String(String)`,
`Assignment(String)` (the transient alias form). -/
inductive Primitive where
  | int (i : Int)
  | string (s : String)
  | assignment (id : String)
  deriving DecidableEq, Repr

/-- `PrintOutput` from basic.rs. -/
inductive PrintOutput where
  | value (s : String)
  | variable (id : String)
  deriving DecidableEq, Repr

/-- `Command` from basic.rs; `Command::Var` carries the pair produced by
the assignment grammar. -/
inductive Command where
  | print (out : PrintOutput)
  | goto (line : Nat)
  | var (v : String × Primitive)
  | comment
  | none
  deriving DecidableEq, Repr

/-- `Line` from basic.rs: `(usize, Command)`. -/
abbrev Line : Type := Nat × Command

/-- The ownership-linked program list from basic.rs. -/
inductive Node where
  | none
  | link (item : Line) (next : Node)
  deriving DecidableEq, Repr

/-- `Node::push`: append at the end of the list. -/
def Node.push : Node → Line → Node
  | .none, v => .link v .none
  | .link item next, v => .link item (next.push v)

/-- `Node::find_line`: first node (in program order) whose line number is
`line`, returned together with everything after it. -/
def Node.find_line : Node → Nat → Option Node
  | .none, _ => Option.none
  | .link item next, line =>
    if item.1 = line then some (.link item next) else next.find_line line

/-- View of a `Node` as the list of its lines. -/
def Node.toList : Node → List Line
  | .none => []
  | .link item next => item :: next.toList

/-- Build a `Node` list from a list of lines. -/
def Node.ofList : List Line → Node
  | [] => .none
  | x :: xs => .link x (Node.ofList xs)

/-- The variable environment: models `HashMap<String, Primitive>`
observationally (`get` returns the most recent insertion). -/
def Env : Type := List (String × Primitive)

instance : DecidableEq Env := by
  unfold Env; infer_instance

def Env.get : Env → String → Option Primitive
  | [], _ => Option.none
  | (k, v) :: rest, id => if k = id then some v else Env.get rest id

def Env.insert (e : Env) (id : String) (v : Primitive) : Env := (id, v) :: e

/-- `Program` from basic.rs. -/
structure Program where
  nodes : Node
  current : Node
  vars : Env
  deriving DecidableEq

/-- `Program::new`. -/
def Program.new (node : Node) : Program :=
  { nodes := node, current := node, vars := [] }

/-!  ## Grammar primitives (src/src/parsers/generic.rs) -/

/-- `consume_line`: take everything until a newline, if any. -/
def consume_line : Parser (List Char) := ptakeWhile (fun c => c != '\n')

/-- `read_string`: a double-quoted token whose body unescapes
backslash-backslash and backslash-quote. -/
def read_string : Parser String :=
  pmap
    (pdelimited (ptag (['"']))
      (escapedTransform (pnoneOf (['\\', '"'])) '\\'
        (palt2 (pvalue (['\\']) (ptag (['\\'])))
          (pvalue (['"']) (ptag (['"'])))))
      (ptag (['"'])))
    String.mk

/-!  ## Value / variable-name grammar (src/src/parsers/variables.rs) -/

/-- Rust `char::is_alphabetic`, modelled on the ASCII subset the claims
exercise. -/
def rustIsAlphabetic (c : Char) : Bool := c.isAlpha

/-- `parse_int_variable_name`: `preceded(not(digit1), alphanumeric1)`. -/
def parse_int_variable_name : Parser String :=
  pmap (ppreceded (pnot pdigit1) palphanumeric1) String.mk

/-- `parse_int`: `name '=' i64` producing `Primitive::Int`. -/
def parse_int : Parser (String × Primitive) := fun i =>
  match parse_int_variable_name i with
  | .ok i1 id =>
    match ptag (['=']) i1 with
    | .ok i2 _ =>
      match pmap cci64 Primitive.int i2 with
      | .ok i3 v => .ok i3 (id, v)
      | .error => .error
      | .incomplete => .incomplete
    | .error => .error
    | .incomplete => .incomplete
  | .error => .error
  | .incomplete => .incomplete

/-- `parse_str_variable_name`: one alphabetic character followed by `$`,
returned as the two-character name. -/
def parse_str_variable_name : Parser String := fun i =>
  match pterminated (pverify panychar rustIsAlphabetic) (ptag (['$'])) i with
  | .ok r c => .ok r (String.mk [c, '$'])
  | .error => .error
  | .incomplete => .incomplete

/-- `parse_str`: `name$ '=' quoted-string` producing `Primitive::String`. -/
def parse_str : Parser (String × Primitive) := fun i =>
  match parse_str_variable_name i with
  | .ok i1 id =>
    match ptag (['=']) i1 with
    | .ok i2 _ =>
      match pmap read_string Primitive.string i2 with
      | .ok i3 v => .ok i3 (id, v)
      | .error => .error
      | .incomplete => .incomplete
    | .error => .error
    | .incomplete => .incomplete
  | .error => .error
  | .incomplete => .incomplete

/-- `parse_assignment` (alias catch-all): `name '=' rest-of-line`. -/
def parse_assignment : Parser (String × Primitive) := fun i =>
  match palt2 parse_str_variable_name parse_int_variable_name i with
  | .ok i1 id =>
    match ptag (['=']) i1 with
    | .ok i2 _ =>
      match consume_line i2 with
      | .ok i3 v => .ok i3 (id, Primitive.assignment (String.mk v))
      | .error => .error
      | .incomplete => .incomplete
    | .error => .error
    | .incomplete => .incomplete
  | .error => .error
  | .incomplete => .incomplete

/-- `parse_var`: ordered alternatives integer → string → alias. -/
def parse_var : Parser (String × Primitive) :=
  palt3 parse_int parse_str parse_assignment

/-!  ## Expression grammar (src/src/parsers/expressions.rs) -/

/-- `Operator` from expressions.rs. -/
inductive Operator where
  | add
  | subtract
  | divide
  | multiply
  deriving DecidableEq, Repr

/-- `From<char> for Operator`.  The source panics on any other character;
its callers feed it only characters matched by `one_of("*/+-")`, so the
default arm is unreachable. -/
def Operator.fromChar : Char → Operator
  | '+' => .add
  | '-' => .subtract
  | '/' => .divide
  | '*' => .multiply
  | _ => .add

/-- `ExpressionTarget` from expressions.rs; the `expr` constructor plays
the role of `Expression(Box<(_, _, _)>)`. -/
inductive ExpressionTarget where
  | val (p : Primitive)
  | expr (lhs : ExpressionTarget) (op : Operator) (rhs : ExpressionTarget)
  deriving DecidableEq, Repr

/-- `Expression`: the triple alias from expressions.rs. -/
abbrev Expression : Type := ExpressionTarget × Operator × ExpressionTarget

/-- `From<Expression> for ExpressionTarget`. -/
def ExpressionTarget.ofExpression : Expression → ExpressionTarget
  | (a, op, b) => .expr a op b

/-- `From<i64> for ExpressionTarget`. -/
def ExpressionTarget.ofInt (i : Int) : ExpressionTarget := .val (.int i)

/-- `parse_expression`: `i64 one_of("*/+-") i64` (no recursion). -/
def parse_expression : Parser Expression := fun i =>
  match pmap cci64 ExpressionTarget.ofInt i with
  | .ok i1 a =>
    match pmap (poneOfStreaming (['*', '/', '+', '-'])) Operator.fromChar i1 with
    | .ok i2 op =>
      match pmap cci64 ExpressionTarget.ofInt i2 with
      | .ok i3 b => .ok i3 (a, op, b)
      | .error => .error
      | .incomplete => .incomplete
    | .error => .error
    | .incomplete => .incomplete
  | .error => .error
  | .incomplete => .incomplete

/-- `parse_expression_target`: a nested sub-expression, else an integer. -/
def parse_expression_target : Parser ExpressionTarget :=
  palt2 (pmap parse_expression ExpressionTarget.ofExpression)
    (pmap cci64 ExpressionTarget.ofInt)

/-- `parse_full_expression`: `target one_of("*/+-") target`. -/
def parse_full_expression : Parser Expression := fun i =>
  match parse_expression_target i with
  | .ok i1 a =>
    match pmap (poneOfStreaming (['*', '/', '+', '-'])) Operator.fromChar i1 with
    | .ok i2 op =>
      match parse_expression_target i2 with
      | .ok i3 b => .ok i3 (a, op, b)
      | .error => .error
      | .incomplete => .incomplete
    | .error => .error
    | .incomplete => .incomplete
  | .error => .error
  | .incomplete => .incomplete

/-!  ## Command parser (src/src/parsers/commands.rs, also duplicated in
src/src/basic.rs) -/

/-- `match_command`: the four keyword literals. -/
def match_command : Parser (List Char) :=
  palt4 (ptag (("PRINT").toList)) (ptag (("GO TO").toList))
    (ptag (("LET").toList)) (ptag (("REM").toList))

/-- `parse_print_command`: variable name (string then integer form), else
a quoted-string literal. -/
def parse_print_command : Parser PrintOutput :=
  palt2
    (pmap (palt2 parse_str_variable_name parse_int_variable_name)
      PrintOutput.variable)
    (pmap read_string PrintOutput.value)

/-- Continuation of `parse_command` after `let (i, command) =
match_command(i).unwrap_or((i, ""))`: a mandatory space, then dispatch on
the matched keyword; an unmatched keyword (empty `command`) yields
`Command::None` without consuming further input. -/
def parse_command_rest (command : List Char) : Parser Command := fun i =>
  match ptag ([' ']) i with
  | .ok i _ =>
    if command = ("PRINT").toList then pmap parse_print_command Command.print i
    else if command = ("GO TO").toList then
      pmap ccu64 (fun line => Command.goto line) i
    else if command = ("LET").toList then pmap parse_var Command.var i
    else if command = ("REM").toList then
      match consume_line i with
      | .ok i2 _ => .ok i2 Command.comment
      | .error => .error
      | .incomplete => .incomplete
    else .ok i Command.none
  | .error => .error
  | .incomplete => .incomplete

/-- `parse_command`: `match_command(i).unwrap_or((i, ""))` (any failure
leaves the input in place with an empty keyword), then the rest. -/
def parse_command : Parser Command := fun i =>
  match match_command i with
  | .ok r v => parse_command_rest v r
  | _ => parse_command_rest [] i

/-- `parse_line`: `line_number ' ' command`. -/
def parse_line : Parser Line := fun line =>
  match pmap (pterminated ccu64 (ptag ([' ']))) (fun l => l) line with
  | .ok i line_number =>
    match parse_command i with
    | .ok i2 command => .ok i2 (line_number, command)
    | .error => .error
    | .incomplete => .incomplete
  | .error => .error
  | .incomplete => .incomplete

/-!  ## Program builder (src/src/basic.rs) -/

/-- `read_program`: newline-separated lines, pushed in order onto a
`Node` list, wrapped by `Program::new`. -/
def read_program : Parser Program := fun i =>
  match separatedList0 (ptag (['\n'])) parse_line i with
  | .ok r lines => .ok r (Program.new (lines.foldl Node.push Node.none))
  | .error => .error
  | .incomplete => .incomplete

/-!  ## Execution engine (src/src/basic.rs, `Program::execute`)

`execute` clones the program into a working iterator (`iter`), repeatedly
takes the current node while advancing the cursor, and dispatches on the
command, mutating `self.vars` and relocating `iter.current` on jumps.
`ExecState` gathers the pieces the loop actually touches: the canonical
`nodes` (never mutated), the iterator cursor `current`, the variable map
`vars`, and the list of lines printed so far. -/

structure ExecState where
  nodes : Node
  current : Node
  vars : Env
  output : List String
  deriving DecidableEq

/-- The state `execute` starts from: the cloned iterator's cursor is the
program's `current` field and nothing has been printed. -/
def initState (p : Program) : ExecState :=
  { nodes := p.nodes, current := p.current, vars := p.vars, output := [] }

/-- The panics `execute` and `jump_to_line` can raise. -/
inductive AbortReason where
  | unboundVariable (id : String)
  | badJump (line : Nat)
  | unrecognisedCommand
  deriving DecidableEq, Repr

/-- Outcome of one (or several) loop iterations: still running, finished
(the cursor ran off the end), or fatally aborted by a panic. -/
inductive ExecOutcome where
  | running (s : ExecState)
  | done (s : ExecState)
  | aborted (reason : AbortReason)
  deriving DecidableEq

/-- `Program::jump_to_line` on the working state: relocate the cursor to
the node `find_line` returns; `Option.none` models the panic. -/
def ExecState.jump_to_line (s : ExecState) (line : Nat) : Option ExecState :=
  match s.nodes.find_line line with
  | some node => some { s with current := node }
  | Option.none => Option.none

/-- Rust's derived `Debug` for `String` contents (`char::escape_debug`),
modelled for the printable ASCII range the programs use. -/
def rustEscapeDebugChar : Char → List Char
  | '\\' => ['\\', '\\']
  | '"' => ['\\', '"']
  | '\n' => ['\\', 'n']
  | '\t' => ['\\', 't']
  | '\r' => ['\\', 'r']
  | c => [c]

def rustDebugString (s : String) : String :=
  String.mk ('"' :: (s.data.flatMap rustEscapeDebugChar) ++ ['"'])

/-- The derived `Debug` form of a `Primitive`, as printed by
`println!("{:?}", ...)` in `execute`. -/
def Primitive.debugFmt : Primitive → String
  | .int i => ("Int(") ++ toString i ++ (")")
  | .string s => ("String(") ++ rustDebugString s ++ (")")
  | .assignment s => ("Assignment(") ++ rustDebugString s ++ (")")

/-- One iteration of the `execute` loop: take the current node, advance
the cursor, dispatch on the command in source order.  `Print(Variable)`
and alias assignment panic (abort) on a missing variable via `unwrap`;
`GoTo` panics when the target line is absent; the catch-all arm
(`Command::None`) panics with "Unrecognised command". -/
def step (s : ExecState) : ExecOutcome :=
  match s.current with
  | Node.none => .done s
  | Node.link item next =>
    let s := { s with current := next }
    match item.2 with
    | Command.print (PrintOutput.value line) =>
      .running { s with output := s.output ++ [line] }
    | Command.print (PrintOutput.variable id) =>
      match s.vars.get id with
      | some v => .running { s with output := s.output ++ [v.debugFmt] }
      | Option.none => .aborted (.unboundVariable id)
    | Command.goto line =>
      match s.jump_to_line line with
      | some s2 => .running s2
      | Option.none => .aborted (.badJump line)
    | Command.var (id, Primitive.assignment other) =>
      match s.vars.get other with
      | some v => .running { s with vars := s.vars.insert id v }
      | Option.none => .aborted (.unboundVariable other)
    | Command.var (id, v) => .running { s with vars := s.vars.insert id v }
    | Command.comment => .running s
    | Command.none => .aborted .unrecognisedCommand

/-- Iterate `step` up to `n` times; stops early on `done` or `aborted`. -/
def steps : Nat → ExecState → ExecOutcome
  | 0, s => .running s
  | n + 1, s =>
    match step s with
    | .running s2 => steps n s2
    | o => o

/-- The printed lines an outcome carries (`aborted` discards them the way
a panic abandons the process). -/
def ExecOutcome.outputs : ExecOutcome → Option (List String)
  | .running s => some s.output
  | .done s => some s.output
  | .aborted _ => Option.none

/-!  ## Helper lemmas about the combinators -/

theorem ptag_ok_iff {t i r : List Char} {v : List Char} :
    ptag t i = .ok r v ↔ v = t ∧ i = t ++ r := by
  unfold ptag
  by_cases h : t.isPrefixOf i
  · rw [if_pos h]
    obtain ⟨u, hu⟩ := List.isPrefixOf_iff_prefix.mp h
    subst hu
    rw [List.drop_left]
    constructor
    · intro hc
      cases hc
      exact ⟨rfl, rfl⟩
    · rintro ⟨hv, hi⟩
      subst hv
      have hur : u = r := List.append_cancel_left hi
      subst hur
      rfl
  · rw [if_neg h]
    constructor
    · intro hc
      exact absurd hc (by simp)
    · rintro ⟨hv, hi⟩
      subst hi
      exact absurd (List.isPrefixOf_iff_prefix.mpr (List.prefix_append t r)) h

theorem ptag_cons {c : Char} {r : List Char} :
    ptag ([c]) (c :: r) = .ok r [c] := by
  apply ptag_ok_iff.mpr
  exact ⟨rfl, rfl⟩

/-- A parser never reporting nom's `Incomplete`: true of everything built
from the `complete` submodules. -/
def NeverInc {α : Type} (p : Parser α) : Prop := ∀ i, p i ≠ .incomplete

/-- A parser whose leftover input is never longer than its input. -/
def Shrinks {α : Type} (p : Parser α) : Prop :=
  ∀ i r a, p i = .ok r a → r.length ≤ i.length

theorem ptag_ni (t : List Char) : NeverInc (ptag t) := by
  intro i
  unfold ptag
  split <;> simp

theorem ptag_shrinks (t : List Char) : Shrinks (ptag t) := by
  intro i r a h
  obtain ⟨-, hi⟩ := ptag_ok_iff.mp h
  subst hi
  simp

theorem pmap_ni {α β : Type} {p : Parser α} (f : α → β) (hp : NeverInc p) :
    NeverInc (pmap p f) := by
  intro i
  unfold pmap
  cases hpi : p i <;> simp
  exact hp i hpi

theorem pmap_shrinks {α β : Type} {p : Parser α} (f : α → β) (hp : Shrinks p) :
    Shrinks (pmap p f) := by
  intro i r a h
  unfold pmap at h
  cases hpi : p i <;> rw [hpi] at h <;> cases h
  exact hp i _ _ hpi

theorem pmap_eq_ok {α β : Type} {p : Parser α} {f : α → β} {i r : List Char}
    {b : β} : pmap p f i = .ok r b ↔ ∃ a, p i = .ok r a ∧ b = f a := by
  unfold pmap
  cases hpi : p i
  case ok r1 a1 =>
    simp only [PRes.ok.injEq]
    constructor
    · rintro ⟨h1, h2⟩
      exact ⟨a1, ⟨h1, rfl⟩, h2.symm⟩
    · rintro ⟨a, ⟨h1, h2⟩, h3⟩
      subst h2
      exact ⟨h1, h3.symm⟩
  · simp
  · simp

theorem palt2_ni {α : Type} {p q : Parser α} (hp : NeverInc p)
    (hq : NeverInc q) : NeverInc (palt2 p q) := by
  intro i
  unfold palt2
  cases hpi : p i
  · simp
  · exact hq i
  · exact absurd hpi (hp i)

theorem palt2_shrinks {α : Type} {p q : Parser α} (hp : Shrinks p)
    (hq : Shrinks q) : Shrinks (palt2 p q) := by
  intro i r a h
  unfold palt2 at h
  cases hpi : p i <;> rw [hpi] at h
  · cases h
    exact hp i _ _ hpi
  · exact hq i _ _ h
  · cases h

theorem pnot_ni {α : Type} {p : Parser α} (hp : NeverInc p) :
    NeverInc (pnot p) := by
  intro i
  unfold pnot
  cases hpi : p i <;> simp
  exact absurd hpi (hp i)

theorem pverify_ni {α : Type} {p : Parser α} (f : α → Bool)
    (hp : NeverInc p) : NeverInc (pverify p f) := by
  intro i h
  unfold pverify at h
  split at h
  next r1 a1 hpi =>
    split at h
    · cases h
    · cases h
  next hpi => cases h
  next hpi => exact hp _ hpi

theorem pverify_shrinks {α : Type} {p : Parser α} (f : α → Bool)
    (hp : Shrinks p) : Shrinks (pverify p f) := by
  intro i r a h
  unfold pverify at h
  split at h
  next r1 a1 hpi =>
    split at h
    · cases h
      exact hp _ _ _ hpi
    · cases h
  next hpi => cases h
  next hpi => cases h

theorem ppreceded_ni {α β : Type} {p : Parser α} {q : Parser β}
    (hp : NeverInc p) (hq : NeverInc q) : NeverInc (ppreceded p q) := by
  intro i h
  unfold ppreceded at h
  split at h
  next r1 a1 hpi => exact hq _ h
  next hpi => cases h
  next hpi => exact hp _ hpi

theorem ppreceded_shrinks {α β : Type} {p : Parser α} {q : Parser β}
    (hp : Shrinks p) (hq : Shrinks q) : Shrinks (ppreceded p q) := by
  intro i r a h
  unfold ppreceded at h
  split at h
  next r1 a1 hpi => exact le_trans (hq _ _ _ h) (hp _ _ _ hpi)
  next hpi => cases h
  next hpi => cases h

theorem pterminated_ni {α β : Type} {p : Parser α} {q : Parser β}
    (hp : NeverInc p) (hq : NeverInc q) : NeverInc (pterminated p q) := by
  intro i h
  unfold pterminated at h
  split at h
  next r1 a1 hpi =>
    split at h
    · cases h
    · cases h
    next hqi => exact hq _ hqi
  next hpi => cases h
  next hpi => exact hp _ hpi

theorem pterminated_shrinks {α β : Type} {p : Parser α} {q : Parser β}
    (hp : Shrinks p) (hq : Shrinks q) : Shrinks (pterminated p q) := by
  intro i r a h
  unfold pterminated at h
  split at h
  next r1 a1 hpi =>
    split at h
    next r2 b hqi =>
      cases h
      exact le_trans (hq _ _ _ hqi) (hp _ _ _ hpi)
    · cases h
    · cases h
  next hpi => cases h
  next hpi => cases h

theorem pdelimited_ni {α β γ : Type} {p : Parser α} {q : Parser β}
    {s : Parser γ} (hp : NeverInc p) (hq : NeverInc q) (hs : NeverInc s) :
    NeverInc (pdelimited p q s) := by
  intro i h
  unfold pdelimited at h
  split at h
  next r1 a1 hpi =>
    split at h
    next r2 b hqi =>
      split at h
      · cases h
      · cases h
      next hsi => exact hs _ hsi
    · cases h
    next hqi => exact hq _ hqi
  next hpi => cases h
  next hpi => exact hp _ hpi

theorem pdelimited_shrinks {α β γ : Type} {p : Parser α} {q : Parser β}
    {s : Parser γ} (hp : Shrinks p) (hq : Shrinks q) (hs : Shrinks s) :
    Shrinks (pdelimited p q s) := by
  intro i r a h
  unfold pdelimited at h
  split at h
  next r1 a1 hpi =>
    split at h
    next r2 b hqi =>
      split at h
      next r3 c hsi =>
        cases h
        exact le_trans (le_trans (hs _ _ _ hsi) (hq _ _ _ hqi)) (hp _ _ _ hpi)
      · cases h
      · cases h
    · cases h
    · cases h
  next hpi => cases h
  next hpi => cases h

theorem panychar_ni : NeverInc panychar := by
  intro i h
  unfold panychar at h
  cases i <;> cases h

theorem panychar_shrinks : Shrinks panychar := by
  intro i r a h
  unfold panychar at h
  cases i <;> cases h
  simp

theorem pnoneOf_ni (l : List Char) : NeverInc (pnoneOf l) := by
  intro i h
  unfold pnoneOf at h
  cases i with
  | nil => cases h
  | cons c r =>
    rcases Bool.eq_false_or_eq_true (l.contains c) with hc | hc <;>
      simp at hc <;> simp [hc] at h

theorem ptakeWhile_ni (f : Char → Bool) : NeverInc (ptakeWhile f) := by
  intro i h
  unfold ptakeWhile at h
  cases h

theorem ptakeWhile_shrinks (f : Char → Bool) : Shrinks (ptakeWhile f) := by
  intro i r a h
  unfold ptakeWhile at h
  cases h
  exact (List.dropWhile_sublist f).length_le

theorem pdigit1_ni : NeverInc pdigit1 := by
  intro i h
  unfold pdigit1 at h
  split at h <;> cases h

theorem pdigit1_shrinks : Shrinks pdigit1 := by
  intro i r a h
  unfold pdigit1 at h
  split at h <;> cases h
  simp

theorem palphanumeric1_ni : NeverInc palphanumeric1 := by
  intro i h
  unfold palphanumeric1 at h
  split at h <;> cases h

theorem palphanumeric1_shrinks : Shrinks palphanumeric1 := by
  intro i r a h
  unfold palphanumeric1 at h
  split at h <;> cases h
  simp

theorem ccu64_ni : NeverInc ccu64 := by
  intro i h
  unfold ccu64 at h
  split at h
  · cases h
  · split at h <;> cases h

theorem ccu64_shrinks : Shrinks ccu64 := by
  intro i r a h
  unfold ccu64 at h
  split at h
  · cases h
  · split at h <;> cases h
    simp

theorem cci64core_ni (neg : Bool) : ∀ i, cci64core neg i ≠ .incomplete := by
  intro i h
  unfold cci64core at h
  split at h
  · cases h
  · split at h
    · split at h <;> cases h
    · split at h <;> cases h

theorem cci64core_shrinks (neg : Bool) :
    ∀ i r a, cci64core neg i = .ok r a → r.length ≤ i.length := by
  intro i r a h
  unfold cci64core at h
  split at h
  · cases h
  · split at h
    · split at h <;> cases h
      simp
    · split at h <;> cases h
      simp

theorem cci64_ni : NeverInc cci64 := by
  intro i h
  unfold cci64 at h
  split at h <;> exact cci64core_ni _ _ h

theorem cci64_shrinks : Shrinks cci64 := by
  intro i r a h
  unfold cci64 at h
  split at h
  next r1 =>
    exact le_trans (cci64core_shrinks _ _ _ _ h)
      (by simp only [List.length_cons]; omega)
  next r1 =>
    exact le_trans (cci64core_shrinks _ _ _ _ h)
      (by simp only [List.length_cons]; omega)
  next h1 h2 =>
    exact cci64core_shrinks _ _ _ _ h

theorem escapedTransformGo_ni {normal : Parser Char} {control : Char}
    {transform : Parser (List Char)} (hn : NeverInc normal)
    (ht : NeverInc transform) :
    ∀ fuel first acc r,
      escapedTransformGo normal control transform fuel first acc r ≠
        .incomplete := by
  intro fuel
  induction fuel with
  | zero =>
    intro first acc r h
    simp [escapedTransformGo] at h
  | succ fuel ih =>
    intro first acc r h
    cases r with
    | nil => simp [escapedTransformGo] at h
    | cons c rest =>
      unfold escapedTransformGo at h
      dsimp only at h
      split at h
      next r2 o hno =>
        split at h
        · cases h
        split at h
        · cases h
        · exact ih _ _ _ h
      next hno => exact hn _ hno
      next hno =>
        split at h
        · split at h
          · cases h
          · split at h
            next r2 o hto =>
              split at h
              · cases h
              · exact ih _ _ _ h
            · cases h
            next hto => exact ht _ hto
        · split at h
          · cases h
          · cases h

theorem escapedTransformGo_shrinks {normal : Parser Char} {control : Char}
    {transform : Parser (List Char)} (hns : Shrinks normal)
    (hts : Shrinks transform) :
    ∀ fuel first acc r rest v,
      escapedTransformGo normal control transform fuel first acc r =
        .ok rest v → rest.length ≤ r.length := by
  intro fuel
  induction fuel with
  | zero =>
    intro first acc r rest v h
    simp [escapedTransformGo] at h
  | succ fuel ih =>
    intro first acc r rest v h
    cases r with
    | nil =>
      simp [escapedTransformGo] at h
      simp [h.1]
    | cons c rest2 =>
      unfold escapedTransformGo at h
      dsimp only at h
      split at h
      next r2 o hno =>
        split at h
        · cases h
          simp
        split at h
        · cases h
          exact le_refl _
        · exact le_trans (ih _ _ _ _ _ h) (hns _ _ _ hno)
      next hno => cases h
      next hno =>
        split at h
        · split at h
          · cases h
          · split at h
            next r2 o hto =>
              split at h
              · cases h
                simp
              · exact le_trans (le_trans (ih _ _ _ _ _ h) (hts _ _ _ hto))
                  (by simp)
            · cases h
            · cases h
        · split at h
          · cases h
          · cases h
            exact le_refl _

theorem escapedTransform_ni {normal : Parser Char} {control : Char}
    {transform : Parser (List Char)} (hn : NeverInc normal)
    (ht : NeverInc transform) :
    NeverInc (escapedTransform normal control transform) :=
  fun i => escapedTransformGo_ni hn ht (i.length + 1) true [] i

theorem escapedTransform_shrinks {normal : Parser Char} {control : Char}
    {transform : Parser (List Char)} (hns : Shrinks normal)
    (hts : Shrinks transform) :
    Shrinks (escapedTransform normal control transform) :=
  fun i r a h => escapedTransformGo_shrinks hns hts (i.length + 1) true [] i r a h

theorem pnoneOf_shrinks (l : List Char) : Shrinks (pnoneOf l) := by
  intro i r a h
  unfold pnoneOf at h
  cases i with
  | nil => cases h
  | cons c rest =>
    rcases Bool.eq_false_or_eq_true (l.contains c) with hc | hc <;>
      simp at hc <;> simp [hc] at h
    obtain ⟨h1, -⟩ := h
    subst h1
    simp

theorem pnot_shrinks {α : Type} {p : Parser α} : Shrinks (pnot p) := by
  intro i r a h
  unfold pnot at h
  split at h
  · cases h
  · cases h
    exact le_refl _
  · cases h

theorem consume_line_ni : NeverInc consume_line :=
  ptakeWhile_ni _

theorem consume_line_shrinks : Shrinks consume_line :=
  ptakeWhile_shrinks _

theorem read_string_ni : NeverInc read_string :=
  pmap_ni _ (pdelimited_ni (ptag_ni _)
    (escapedTransform_ni (pnoneOf_ni _) (palt2_ni (pmap_ni _ (ptag_ni _))
      (pmap_ni _ (ptag_ni _)))) (ptag_ni _))

theorem read_string_shrinks : Shrinks read_string :=
  pmap_shrinks _ (pdelimited_shrinks (ptag_shrinks _)
    (escapedTransform_shrinks (pnoneOf_shrinks _)
      (palt2_shrinks (pmap_shrinks _ (ptag_shrinks _))
        (pmap_shrinks _ (ptag_shrinks _))))
    (ptag_shrinks _))

theorem parse_int_variable_name_ni : NeverInc parse_int_variable_name :=
  pmap_ni _ (ppreceded_ni (pnot_ni pdigit1_ni) palphanumeric1_ni)

theorem parse_int_variable_name_shrinks : Shrinks parse_int_variable_name :=
  pmap_shrinks _ (ppreceded_shrinks pnot_shrinks palphanumeric1_shrinks)

theorem parse_int_ni : NeverInc parse_int := by
  intro i h
  unfold parse_int at h
  split at h
  next r1 a1 h1 =>
    split at h
    next r2 a2 h2 =>
      split at h
      · cases h
      · cases h
      next h3 => exact pmap_ni _ cci64_ni _ h3
    · cases h
    next h2 => exact ptag_ni _ _ h2
  · cases h
  next h1 => exact parse_int_variable_name_ni _ h1

theorem parse_int_shrinks : Shrinks parse_int := by
  intro i r a h
  unfold parse_int at h
  split at h
  next r1 a1 h1 =>
    split at h
    next r2 a2 h2 =>
      split at h
      next r3 a3 h3 =>
        cases h
        exact le_trans (le_trans (pmap_shrinks _ cci64_shrinks _ _ _ h3)
          (ptag_shrinks _ _ _ _ h2)) (parse_int_variable_name_shrinks _ _ _ h1)
      · cases h
      · cases h
    · cases h
    · cases h
  · cases h
  · cases h

theorem parse_str_variable_name_ni : NeverInc parse_str_variable_name := by
  intro i h
  unfold parse_str_variable_name at h
  split at h
  · cases h
  · cases h
  next h1 =>
    exact pterminated_ni (pverify_ni _ panychar_ni) (ptag_ni _) _ h1

theorem parse_str_variable_name_shrinks : Shrinks parse_str_variable_name := by
  intro i r a h
  unfold parse_str_variable_name at h
  split at h
  next r1 a1 h1 =>
    cases h
    exact pterminated_shrinks (pverify_shrinks _ panychar_shrinks)
      (ptag_shrinks _) _ _ _ h1
  · cases h
  · cases h

theorem parse_str_ni : NeverInc parse_str := by
  intro i h
  unfold parse_str at h
  split at h
  next r1 a1 h1 =>
    split at h
    next r2 a2 h2 =>
      split at h
      · cases h
      · cases h
      next h3 => exact pmap_ni _ read_string_ni _ h3
    · cases h
    next h2 => exact ptag_ni _ _ h2
  · cases h
  next h1 => exact parse_str_variable_name_ni _ h1

theorem parse_str_shrinks : Shrinks parse_str := by
  intro i r a h
  unfold parse_str at h
  split at h
  next r1 a1 h1 =>
    split at h
    next r2 a2 h2 =>
      split at h
      next r3 a3 h3 =>
        cases h
        exact le_trans (le_trans (pmap_shrinks _ read_string_shrinks _ _ _ h3)
          (ptag_shrinks _ _ _ _ h2)) (parse_str_variable_name_shrinks _ _ _ h1)
      · cases h
      · cases h
    · cases h
    · cases h
  · cases h
  · cases h

theorem parse_assignment_ni : NeverInc parse_assignment := by
  intro i h
  unfold parse_assignment at h
  split at h
  next r1 a1 h1 =>
    split at h
    next r2 a2 h2 =>
      split at h
      · cases h
      · cases h
      next h3 => exact consume_line_ni _ h3
    · cases h
    next h2 => exact ptag_ni _ _ h2
  · cases h
  next h1 =>
    exact palt2_ni parse_str_variable_name_ni parse_int_variable_name_ni _ h1

theorem parse_assignment_shrinks : Shrinks parse_assignment := by
  intro i r a h
  unfold parse_assignment at h
  split at h
  next r1 a1 h1 =>
    split at h
    next r2 a2 h2 =>
      split at h
      next r3 a3 h3 =>
        cases h
        exact le_trans (le_trans (consume_line_shrinks _ _ _ h3)
          (ptag_shrinks _ _ _ _ h2))
          (palt2_shrinks parse_str_variable_name_shrinks
            parse_int_variable_name_shrinks _ _ _ h1)
      · cases h
      · cases h
    · cases h
    · cases h
  · cases h
  · cases h

theorem parse_var_ni : NeverInc parse_var :=
  palt2_ni parse_int_ni (palt2_ni parse_str_ni parse_assignment_ni)

theorem parse_var_shrinks : Shrinks parse_var :=
  palt2_shrinks parse_int_shrinks
    (palt2_shrinks parse_str_shrinks parse_assignment_shrinks)

theorem match_command_ni : NeverInc match_command :=
  palt2_ni (ptag_ni _) (palt2_ni (ptag_ni _)
    (palt2_ni (ptag_ni _) (ptag_ni _)))

theorem parse_print_command_ni : NeverInc parse_print_command :=
  palt2_ni
    (pmap_ni _ (palt2_ni parse_str_variable_name_ni parse_int_variable_name_ni))
    (pmap_ni _ read_string_ni)

theorem parse_print_command_shrinks : Shrinks parse_print_command :=
  palt2_shrinks
    (pmap_shrinks _ (palt2_shrinks parse_str_variable_name_shrinks
      parse_int_variable_name_shrinks))
    (pmap_shrinks _ read_string_shrinks)

theorem match_command_shrinks : Shrinks match_command :=
  palt2_shrinks (ptag_shrinks _) (palt2_shrinks (ptag_shrinks _)
    (palt2_shrinks (ptag_shrinks _) (ptag_shrinks _)))

theorem parse_command_rest_ni (command : List Char) :
    NeverInc (parse_command_rest command) := by
  intro i h
  unfold parse_command_rest at h
  split at h
  next i2 w hsp =>
    split at h
    · exact pmap_ni _ parse_print_command_ni _ h
    split at h
    · exact pmap_ni _ ccu64_ni _ h
    split at h
    · exact pmap_ni _ parse_var_ni _ h
    split at h
    · split at h
      · cases h
      · cases h
      next hcl => exact consume_line_ni _ hcl
    · cases h
  · cases h
  next hsp => exact ptag_ni _ _ hsp

theorem parse_command_rest_shrinks (command : List Char) :
    Shrinks (parse_command_rest command) := by
  intro i r a h
  unfold parse_command_rest at h
  split at h
  next i2 w hsp =>
    have hsp2 := ptag_shrinks _ _ _ _ hsp
    split at h
    · exact le_trans (pmap_shrinks _ parse_print_command_shrinks _ _ _ h) hsp2
    split at h
    · exact le_trans (pmap_shrinks _ ccu64_shrinks _ _ _ h) hsp2
    split at h
    · exact le_trans (pmap_shrinks _ parse_var_shrinks _ _ _ h) hsp2
    split at h
    · split at h
      next r3 a3 hcl =>
        cases h
        exact le_trans (consume_line_shrinks _ _ _ hcl) hsp2
      · cases h
      · cases h
    · cases h
      exact hsp2
  · cases h
  · cases h

theorem parse_command_ni : NeverInc parse_command := by
  intro i h
  unfold parse_command at h
  split at h
  next r v hmc => exact parse_command_rest_ni _ _ h
  next hmc => exact parse_command_rest_ni _ _ h

theorem parse_command_shrinks : Shrinks parse_command := by
  intro i r a h
  unfold parse_command at h
  split at h
  next r1 v hmc =>
    exact le_trans (parse_command_rest_shrinks _ _ _ _ h)
      (match_command_shrinks _ _ _ hmc)
  next hmc => exact parse_command_rest_shrinks _ _ _ _ h

theorem parse_line_ni : NeverInc parse_line := by
  intro i h
  unfold parse_line at h
  split at h
  next i1 n h1 =>
    split at h
    · cases h
    · cases h
    next h2 => exact parse_command_ni _ h2
  · cases h
  next h1 =>
    exact pmap_ni _ (pterminated_ni ccu64_ni (ptag_ni _)) _ h1

theorem parse_line_shrinks : Shrinks parse_line := by
  intro i r a h
  unfold parse_line at h
  split at h
  next i1 n h1 =>
    split at h
    next i2 c h2 =>
      cases h
      exact le_trans (parse_command_shrinks _ _ _ h2)
        (pmap_shrinks _ (pterminated_shrinks ccu64_shrinks (ptag_shrinks _))
          _ _ _ h1)
    · cases h
    · cases h
  · cases h
  · cases h

theorem separatedList0Go_ok {α : Type} {f : Parser α} (hni : NeverInc f)
    (hs : Shrinks f) :
    ∀ fuel acc i, i.length < fuel →
      ∃ r l, separatedList0Go (ptag (['\n'])) f fuel acc i = .ok r l := by
  intro fuel
  induction fuel with
  | zero =>
    intro acc i hlt
    omega
  | succ fuel ih =>
    intro acc i hlt
    simp only [separatedList0Go]
    cases hsep : ptag (['\n']) i with
    | error => exact ⟨i, acc, rfl⟩
    | incomplete => exact absurd hsep (ptag_ni _ _)
    | ok i1 o =>
      dsimp only
      cases hf : f i1 with
      | error => exact ⟨i, acc, rfl⟩
      | incomplete => exact absurd hf (hni _)
      | ok i2 o2 =>
        dsimp only
        obtain ⟨-, hi⟩ := ptag_ok_iff.mp hsep
        have h2 := hs _ _ _ hf
        have hlen : i.length = i1.length + 1 := by
          subst hi
          simp
        have hne : ¬ i2.length = i.length := by omega
        rw [if_neg hne]
        exact ih _ _ (by omega)

/-- `read_program` can never fail: `separated_list0` turns any parse
failure of a line into the end of the list. -/
theorem read_program_ok (i : List Char) : ∃ r p, read_program i = .ok r p := by
  unfold read_program separatedList0
  cases hpl : parse_line i
  case ok i1 o =>
    obtain ⟨r, l, hgo⟩ :=
      separatedList0Go_ok parse_line_ni parse_line_shrinks (i1.length + 1)
        [o] i1 (by omega)
    dsimp only
    rw [hgo]
    exact ⟨r, _, rfl⟩
  case error => exact ⟨i, _, rfl⟩
  case incomplete => exact absurd hpl (parse_line_ni _)

/-!  ## Node lemmas -/

theorem Node.ofList_toList : ∀ nd : Node, Node.ofList nd.toList = nd
  | .none => rfl
  | .link item next => by
    simp only [Node.toList, Node.ofList, Node.link.injEq]
    exact ⟨trivial, Node.ofList_toList next⟩

/-- `find_line` returns exactly the suffix of the program starting at the
first entry carrying the requested line number. -/
theorem Node.find_line_eq_dropWhile (nd : Node) (n : Nat) :
    nd.find_line n =
      (match nd.toList.dropWhile (fun e => e.1 != n) with
       | [] => Option.none
       | x :: xs => some (Node.ofList (x :: xs))) := by
  induction nd with
  | none => rfl
  | link item next ih =>
    by_cases hn : item.1 = n
    · simp only [Node.find_line, if_pos hn, Node.toList]
      rw [List.dropWhile_cons_of_neg (by simp [hn])]
      simp only [Node.ofList, Node.ofList_toList]
    · simp only [Node.find_line, if_neg hn, Node.toList]
      rw [List.dropWhile_cons_of_pos (by simp [hn])]
      exact ih

theorem Node.find_line_some {nd m : Node} {n : Nat}
    (h : nd.find_line n = some m) :
    ∃ item next2, m = Node.link item next2 ∧ item.1 = n := by
  induction nd with
  | none => cases h
  | link item next ih =>
    unfold Node.find_line at h
    split at h
    next hn =>
      cases h
      exact ⟨item, next, rfl, hn⟩
    next hn => exact ih h

theorem Node.find_line_suffix {nd m : Node} {n : Nat}
    (h : nd.find_line n = some m) : List.IsSuffix m.toList nd.toList := by
  induction nd with
  | none => cases h
  | link item next ih =>
    unfold Node.find_line at h
    split at h
    next hn =>
      cases h
      exact List.suffix_refl _
    next hn =>
      exact List.IsSuffix.trans (ih h) (List.suffix_cons item next.toList)

/-!  ## Claim theorems -/

/-- C10: when several entries share line number `n`, `find_line` (hence
`jump_to_line` and `GO TO n`) deterministically selects the earliest such
entry in program order: it returns the suffix obtained by dropping the
longest prefix of entries whose line numbers differ from `n`, and on the
duplicate-line program `[(10, PRINT "first"), (10, PRINT "second")]` it
returns the whole list, i.e. the first occurrence. -/
theorem find_line_first_occurrence :
    (∀ (nd : Node) (n : Nat), nd.find_line n =
      (match nd.toList.dropWhile (fun e => e.1 != n) with
       | [] => Option.none
       | x :: xs => some (Node.ofList (x :: xs)))) ∧
    (Node.link (10, Command.print (PrintOutput.value ("first")))
      (Node.link (10, Command.print (PrintOutput.value ("second")))
        Node.none)).find_line 10 =
      some (Node.link (10, Command.print (PrintOutput.value ("first")))
        (Node.link (10, Command.print (PrintOutput.value ("second")))
          Node.none)) :=
  ⟨Node.find_line_eq_dropWhile, by decide⟩

/-- C5: dispatching `Jump(target)` relocates the cursor to the node
returned by `find_line` — a suffix of the program whose head entry has
line number `target`, so that entry runs next followed by everything
after it — and when no entry has that number the step aborts fatally
(models the panic) instead of returning a recoverable result. -/
theorem goto_dispatch_semantics :
    ∀ (s : ExecState) (ln target : Nat) (next : Node),
      s.current = Node.link (ln, Command.goto target) next →
      (∀ node, s.nodes.find_line target = some node →
        step s = .running { s with current := node } ∧
        (∃ item next2, node = Node.link item next2 ∧ item.1 = target) ∧
        List.IsSuffix node.toList s.nodes.toList) ∧
      (s.nodes.find_line target = Option.none →
        step s = .aborted (.badJump target)) := by
  intro s ln target next hcur
  constructor
  · intro node hfl
    refine ⟨?_, Node.find_line_some hfl, Node.find_line_suffix hfl⟩
    unfold step
    rw [hcur]
    dsimp only
    unfold ExecState.jump_to_line
    dsimp only
    rw [hfl]
  · intro hfl
    unfold step
    rw [hcur]
    dsimp only
    unfold ExecState.jump_to_line
    dsimp only
    rw [hfl]

theorem goto_dispatch_semantics_witness :
    step { nodes := Node.link (10, Command.goto 10) Node.none,
           current := Node.link (10, Command.goto 10) Node.none,
           vars := [], output := [] } =
      .running { nodes := Node.link (10, Command.goto 10) Node.none,
                 current := Node.link (10, Command.goto 10) Node.none,
                 vars := [], output := [] } :=
  ((goto_dispatch_semantics _ 10 10 Node.none rfl).1
    (Node.link (10, Command.goto 10) Node.none) (by decide)).1

/-- The parsed form of `["10 GO TO 10"]` and the state `execute` starts
from on it. -/
def gotoSelfState : ExecState :=
  initState (Program.new (Node.link (10, Command.goto 10) Node.none))

theorem steps_gotoSelf (n : Nat) : steps n gotoSelfState = .running gotoSelfState := by
  induction n with
  | zero => rfl
  | succ n ih =>
    have hstep : step gotoSelfState = .running gotoSelfState := by decide
    rw [steps, hstep]
    exact ih

/-- C8: executing `["10 GO TO 10"]` never terminates: the jump returns the
cursor to the very same state, so after any number `n` of loop iterations
the cursor still holds the `GO TO` entry and the terminal (`done`) state
is unreachable — the engine has no step budget or cycle detection. -/
theorem goto_self_never_terminates :
    read_program (("10 GO TO 10").toList) =
      .ok [] (Program.new (Node.link (10, Command.goto 10) Node.none)) ∧
    (∀ n, steps n gotoSelfState = .running gotoSelfState) ∧
    gotoSelfState.current = Node.link (10, Command.goto 10) Node.none ∧
    (∀ n s2, steps n gotoSelfState ≠ .done s2) := by
  refine ⟨by decide, steps_gotoSelf, rfl, ?_⟩
  intro n s2 h
  rw [steps_gotoSelf n] at h
  cases h

/-- C3 counterexample: on the unparseable input `"x"` the builder returns
success with the empty program while leaving the whole input unparsed,
instead of propagating the line's parse failure. -/
theorem read_program_counterexample :
    parse_line (("x").toList) = .error ∧
    read_program (("x").toList) = .ok (("x").toList) (Program.new Node.none) := by
  constructor
  · decide
  · decide

/-- C3 (amended): `read_program` never fails: it always returns success,
consuming the newline-separated lines it can parse and leaving everything
from the first failing line on unconsumed (a partial program rather than
a propagated failure); on `"10 PRINT \"hi\"\nx"` it yields the one-line
program with `"\nx"` unparsed. -/
theorem read_program_total_success :
    (∀ i, ∃ r p, read_program i = .ok r p) ∧
    read_program (("10 PRINT \"hi\"\nx").toList) =
      .ok (("\nx").toList)
        (Program.new (Node.link (10, Command.print (PrintOutput.value ("hi")))
          Node.none)) :=
  ⟨read_program_ok, by decide⟩

/-- C4 counterexample: grouping is not left-associative in general: the
four-operand chain `"1+2+3+4"` is accepted in full and parses as the
balanced tree `((1+2)+(3+4))`, not the left-nested `(((1+2)+3)+4)`; and
the three-operand chain `"1+1+2"` does not parse at all — the streaming
operator matcher reports `Incomplete` at end of input. -/
theorem expression_not_left_associative :
    parse_full_expression (("1+2+3+4").toList) =
      .ok []
        (ExpressionTarget.expr (ExpressionTarget.val (Primitive.int 1))
          Operator.add (ExpressionTarget.val (Primitive.int 2)),
         Operator.add,
         ExpressionTarget.expr (ExpressionTarget.val (Primitive.int 3))
          Operator.add (ExpressionTarget.val (Primitive.int 4))) ∧
    ((ExpressionTarget.expr (ExpressionTarget.val (Primitive.int 1))
        Operator.add (ExpressionTarget.val (Primitive.int 2)),
      Operator.add,
      ExpressionTarget.expr (ExpressionTarget.val (Primitive.int 3))
        Operator.add (ExpressionTarget.val (Primitive.int 4))) :
        Expression) ≠
      (ExpressionTarget.expr
        (ExpressionTarget.expr (ExpressionTarget.val (Primitive.int 1))
          Operator.add (ExpressionTarget.val (Primitive.int 2)))
        Operator.add (ExpressionTarget.val (Primitive.int 3)),
       Operator.add,
       ExpressionTarget.val (Primitive.int 4)) ∧
    parse_full_expression (("1+1+2").toList) = .incomplete := by
  refine ⟨by decide, by decide, by decide⟩

/-- C4 (amended): the expression grammar tries a (single-level)
sub-expression `int op int` as the left operand before falling back to a
bare integer — so `"1+2+3x"` parses with the grouping `((1+2)+3)` — but
chains are not nested to the left in general: `"1+2+3+4"` parses as
`((1+2)+(3+4))`, and an input that ends immediately after a complete
expression (`"1+1"`, `"1+1+2"`) fails with `Incomplete` because the
operator matcher is the streaming `one_of`. -/
theorem expression_parse_shapes :
    (∀ i, parse_expression_target i =
      palt2 (pmap parse_expression ExpressionTarget.ofExpression)
        (pmap cci64 ExpressionTarget.ofInt) i) ∧
    parse_full_expression (("1+2+3x").toList) =
      .ok (("x").toList)
        (ExpressionTarget.expr (ExpressionTarget.val (Primitive.int 1))
          Operator.add (ExpressionTarget.val (Primitive.int 2)),
         Operator.add, ExpressionTarget.val (Primitive.int 3)) ∧
    parse_full_expression (("1+2+3+4").toList) =
      .ok []
        (ExpressionTarget.expr (ExpressionTarget.val (Primitive.int 1))
          Operator.add (ExpressionTarget.val (Primitive.int 2)),
         Operator.add,
         ExpressionTarget.expr (ExpressionTarget.val (Primitive.int 3))
          Operator.add (ExpressionTarget.val (Primitive.int 4))) ∧
    parse_full_expression (("1+1").toList) = .incomplete ∧
    parse_full_expression (("1+1+2").toList) = .incomplete :=
  ⟨fun i => rfl, by decide, by decide, by decide, by decide⟩

/-- C6: the `LET` payload grammar tries integer, then string, then the
alias catch-all, in exactly that order; `"a=5"` resolves as an integer
assignment even though the alias shape also matches it, and `"a=b$"`,
rejected by the integer and string forms, resolves as an alias. -/
theorem let_assignment_priority :
    (∀ i, parse_var i =
      (match parse_int i with
       | .error =>
         (match parse_str i with
          | .error => parse_assignment i
          | r => r)
       | r => r)) ∧
    parse_var (("a=5").toList) = .ok [] (("a"), Primitive.int 5) ∧
    parse_assignment (("a=5").toList) =
      .ok [] (("a"), Primitive.assignment ("5")) ∧
    parse_var (("a=b$").toList) = .ok [] (("a"), Primitive.assignment ("b$")) ∧
    parse_int (("a=b$").toList) = .error ∧
    parse_str (("a=b$").toList) = .error := by
  refine ⟨fun i => ?_, by decide, by decide, by decide, by decide, by decide⟩
  unfold parse_var palt3 palt2
  cases parse_int i with
  | error => cases parse_str i <;> rfl
  | ok r a => rfl
  | incomplete => rfl

/-- Parsed form of `["10 LET a=1","20 PRINT a"]`. -/
def letPrintProgram : Program :=
  Program.new (Node.link (10, Command.var (("a"), Primitive.int 1))
    (Node.link (20, Command.print (PrintOutput.variable ("a"))) Node.none))

/-- C1 counterexample: running `["10 LET a=1","20 PRINT a"]` emits the
`Debug` rendering `Int(1)` — `execute` prints variables with
`println!("{:?}", ...)` — not the plain text `1` the claim requires. -/
theorem print_variable_debug_counterexample :
    read_program (("10 LET a=1\n20 PRINT a").toList) = .ok [] letPrintProgram ∧
    (steps 3 (initState letPrintProgram)).outputs = some ([("Int(1)")]) ∧
    (["Int(1)"] : List String) ≠ (["1"]) :=
  ⟨by decide, by decide, by decide⟩

/-- C1 (amended): dispatching `Print(VariableRef(id))` looks `id` up in
the environment; if a value is stored the engine emits that value's
derived `Debug` rendering (so the two-line program above emits exactly
`Int(1)`), and if `id` is absent execution fatally aborts (the `unwrap`
panic). -/
theorem print_variable_semantics :
    (∀ (s : ExecState) (ln : Nat) (id : String) (next : Node),
      s.current = Node.link (ln, Command.print (PrintOutput.variable id)) next →
      (∀ v, s.vars.get id = some v →
        step s =
          .running { s with
            current := next, output := s.output ++ [v.debugFmt] }) ∧
      (s.vars.get id = Option.none →
        step s = .aborted (.unboundVariable id))) ∧
    (steps 3 (initState letPrintProgram)).outputs = some ([("Int(1)")]) := by
  constructor
  · intro s ln id next hcur
    constructor
    · intro v hv
      unfold step
      rw [hcur]
      dsimp only
      rw [hv]
    · intro hv
      unfold step
      rw [hcur]
      dsimp only
      rw [hv]
  · decide

theorem print_variable_semantics_witness :
    ({ nodes := Node.none,
       current := Node.link (20, Command.print (PrintOutput.variable ("a")))
         Node.none,
       vars := [(("a"), Primitive.int 1)], output := [] } : ExecState).vars.get
        ("a") = some (Primitive.int 1) ∧
    step { nodes := Node.none,
           current := Node.link (20, Command.print (PrintOutput.variable ("a")))
             Node.none,
           vars := [(("a"), Primitive.int 1)], output := [] } =
      .running { nodes := Node.none, current := Node.none,
                 vars := [(("a"), Primitive.int 1)],
                 output := [("Int(1)")] } :=
  ⟨rfl,
    (print_variable_semantics.1 _ 20 ("a") Node.none rfl).1
      (Primitive.int 1) rfl⟩

/-- A `Primitive` that the environment is allowed to hold: an integer or
a text value, never an alias. -/
def Primitive.isStored (v : Primitive) : Prop :=
  (∃ i, v = Primitive.int i) ∨ (∃ s, v = Primitive.string s)

/-- The environment invariant: every stored value is `Int` or `String`. -/
def EnvOK (e : Env) : Prop := ∀ id v, Env.get e id = some v → v.isStored

theorem envOK_insert {e : Env} {id : String} {v : Primitive} (he : EnvOK e)
    (hv : v.isStored) : EnvOK (e.insert id v) := by
  intro id2 v2 h
  unfold Env.insert Env.get at h
  split at h
  · cases h
    exact hv
  · exact he _ _ h

theorem step_preserves_envOK {s s2 : ExecState} (he : EnvOK s.vars)
    (h : step s = .running s2 ∨ step s = .done s2) : EnvOK s2.vars := by
  rcases h with h | h <;> unfold step at h
  · split at h
    · cases h
    next item next =>
      dsimp only at h
      split at h
      · cases h
        exact he
      · split at h
        · cases h
          exact he
        · cases h
      · unfold ExecState.jump_to_line at h
        dsimp only at h
        split at h
        next s3 heq =>
          cases h
          split at heq
          · cases heq
            exact he
          · cases heq
        next heq => cases h
      · split at h
        next v hv =>
          cases h
          exact envOK_insert he (he _ _ hv)
        · cases h
      next id2 v2 hconstraint heq =>
        cases h
        refine envOK_insert he ?_
        cases v2 with
        | int i => exact Or.inl ⟨i, rfl⟩
        | string t => exact Or.inr ⟨t, rfl⟩
        | assignment other => exact absurd rfl (hconstraint other)
      · cases h
        exact he
      · cases h
  · split at h
    · cases h
      exact he
    next item next =>
      dsimp only at h
      split at h
      · cases h
      · split at h <;> cases h
      · unfold ExecState.jump_to_line at h
        dsimp only at h
        split at h <;> cases h
      · split at h <;> cases h
      · cases h
      · cases h
      · cases h

theorem steps_envOK {s : ExecState} (he : EnvOK s.vars) :
    ∀ n s2, (steps n s = .running s2 ∨ steps n s = .done s2) →
      EnvOK s2.vars := by
  intro n
  induction n generalizing s with
  | zero =>
    intro s2 h
    rcases h with h | h <;> cases h
    exact he
  | succ n ih =>
    intro s2 h
    rw [steps] at h
    cases hstep : step s with
    | running s3 =>
      rw [hstep] at h
      exact ih (step_preserves_envOK he (Or.inl hstep)) s2 h
    | done s3 =>
      rw [hstep] at h
      rcases h with h | h <;> cases h
      exact step_preserves_envOK he (Or.inr hstep)
    | aborted r =>
      rw [hstep] at h
      rcases h with h | h <;> cases h

/-- C7: executing `Assign(id, Alias(other))` copies the concrete value
currently bound to `other` (fatally aborting when `other` is unbound);
each step preserves the restriction of the environment to Integer/Text
values; and since a freshly built program starts with an empty
environment, every state reachable during execution stores only Integer
or Text primitives, never an Alias. -/
theorem environment_never_stores_alias :
    (∀ (s : ExecState) (ln : Nat) (id other : String) (next : Node),
      s.current =
        Node.link (ln, Command.var (id, Primitive.assignment other)) next →
      (∀ v, s.vars.get other = some v →
        step s =
          .running { s with
            current := next, vars := s.vars.insert id v }) ∧
      (s.vars.get other = Option.none →
        step s = .aborted (.unboundVariable other))) ∧
    (∀ s s2 : ExecState, EnvOK s.vars →
      (step s = .running s2 ∨ step s = .done s2) → EnvOK s2.vars) ∧
    (∀ (nd : Node) (n : Nat) (s2 : ExecState),
      (steps n (initState (Program.new nd)) = .running s2 ∨
        steps n (initState (Program.new nd)) = .done s2) →
      EnvOK s2.vars) := by
  refine ⟨?_, fun s s2 he h => step_preserves_envOK he h,
    fun nd n s2 h => steps_envOK (fun id v hv => by cases hv) n s2 h⟩
  intro s ln id other next hcur
  constructor
  · intro v hv
    unfold step
    rw [hcur]
    dsimp only
    rw [hv]
  · intro hv
    unfold step
    rw [hcur]
    dsimp only
    rw [hv]

theorem environment_never_stores_alias_witness :
    step { nodes := Node.none,
           current := Node.link
             (10, Command.var (("x"), Primitive.assignment ("a"))) Node.none,
           vars := [(("a"), Primitive.int 1)], output := [] } =
      .running { nodes := Node.none, current := Node.none,
                 vars := [(("x"), Primitive.int 1), (("a"), Primitive.int 1)],
                 output := [] } :=
  (environment_never_stores_alias.1 _ 10 ("x") ("a") Node.none rfl).1
    (Primitive.int 1) rfl

theorem ptag_cons_ne {c d : Char} {t r : List Char} (h : c ≠ d) :
    ptag (c :: t) (d :: r) = .error := by
  unfold ptag
  rw [if_neg]
  intro hp
  obtain ⟨u, hu⟩ := List.isPrefixOf_iff_prefix.mp hp
  rw [List.cons_append] at hu
  injection hu with h1 h2
  exact h h1

theorem match_command_sp {r : List Char} : match_command (' ' :: r) = .error := by
  have hP : ptag (("PRINT").toList) (' ' :: r) = .error := ptag_cons_ne (by decide)
  have hG : ptag (("GO TO").toList) (' ' :: r) = .error := ptag_cons_ne (by decide)
  have hL : ptag (("LET").toList) (' ' :: r) = .error := ptag_cons_ne (by decide)
  have hR : ptag (("REM").toList) (' ' :: r) = .error := ptag_cons_ne (by decide)
  unfold match_command palt4 palt2
  rw [hP]
  dsimp only
  rw [hG]
  dsimp only
  rw [hL]
  dsimp only
  rw [hR]

theorem match_command_ok_val {i r v : List Char}
    (h : match_command i = .ok r v) :
    v = ("PRINT").toList ∨ v = ("GO TO").toList ∨ v = ("LET").toList ∨
      v = ("REM").toList := by
  unfold match_command palt4 palt2 at h
  cases hP : ptag (("PRINT").toList) i with
  | ok r1 v1 =>
    rw [hP] at h
    dsimp only at h
    cases h
    exact Or.inl (ptag_ok_iff.mp hP).1
  | incomplete =>
    rw [hP] at h
    dsimp only at h
    cases h
  | error =>
    rw [hP] at h
    dsimp only at h
    cases hG : ptag (("GO TO").toList) i with
    | ok r1 v1 =>
      rw [hG] at h
      dsimp only at h
      cases h
      exact Or.inr (Or.inl (ptag_ok_iff.mp hG).1)
    | incomplete =>
      rw [hG] at h
      dsimp only at h
      cases h
    | error =>
      rw [hG] at h
      dsimp only at h
      cases hL : ptag (("LET").toList) i with
      | ok r1 v1 =>
        rw [hL] at h
        dsimp only at h
        cases h
        exact Or.inr (Or.inr (Or.inl (ptag_ok_iff.mp hL).1))
      | incomplete =>
        rw [hL] at h
        dsimp only at h
        cases h
      | error =>
        rw [hL] at h
        dsimp only at h
        exact Or.inr (Or.inr (Or.inr (ptag_ok_iff.mp h).1))

theorem parse_command_rest_keyword_not_none {v : List Char}
    (hv : v = ("PRINT").toList ∨ v = ("GO TO").toList ∨ v = ("LET").toList ∨
      v = ("REM").toList)
    {i r : List Char} (h : parse_command_rest v i = .ok r Command.none) :
    False := by
  unfold parse_command_rest at h
  split at h
  next i2 w hsp =>
    rcases hv with hv | hv | hv | hv <;> subst hv
    · rw [if_pos rfl] at h
      obtain ⟨a, -, ha⟩ := pmap_eq_ok.mp h
      cases ha
    · rw [if_neg (by decide), if_pos rfl] at h
      obtain ⟨a, -, ha⟩ := pmap_eq_ok.mp h
      cases ha
    · rw [if_neg (by decide), if_neg (by decide), if_pos rfl] at h
      obtain ⟨a, -, ha⟩ := pmap_eq_ok.mp h
      cases ha
    · rw [if_neg (by decide), if_neg (by decide), if_neg (by decide),
        if_pos rfl] at h
      split at h <;> cases h
  · cases h
  · cases h

theorem parse_command_rest_empty_none {i r : List Char} :
    parse_command_rest [] i = .ok r Command.none ↔ i = ' ' :: r := by
  constructor
  · intro h
    unfold parse_command_rest at h
    cases hsp : ptag ([' ']) i with
    | ok i2 w =>
      rw [hsp] at h
      dsimp only at h
      rw [if_neg (by decide), if_neg (by decide), if_neg (by decide),
        if_neg (by decide)] at h
      obtain ⟨-, hi⟩ := ptag_ok_iff.mp hsp
      cases h
      exact hi
    | error =>
      rw [hsp] at h
      dsimp only at h
      cases h
    | incomplete =>
      rw [hsp] at h
      dsimp only at h
      cases h
  · intro hi
    subst hi
    unfold parse_command_rest
    rw [ptag_cons]
    dsimp only
    rw [if_neg (by decide), if_neg (by decide), if_neg (by decide),
      if_neg (by decide)]

/-- An unmatched keyword parses to `Command::None` exactly when the text
at the keyword position begins with a space character: the parser
consumes that one space and nothing else. -/
theorem parse_command_none_iff (i r : List Char) :
    parse_command i = .ok r Command.none ↔ i = ' ' :: r := by
  constructor
  · intro h
    unfold parse_command at h
    cases hmc : match_command i with
    | ok r1 v =>
      rw [hmc] at h
      dsimp only at h
      exact absurd h
        (fun h => parse_command_rest_keyword_not_none (match_command_ok_val hmc) h)
    | error =>
      rw [hmc] at h
      dsimp only at h
      exact parse_command_rest_empty_none.mp h
    | incomplete =>
      rw [hmc] at h
      dsimp only at h
      exact parse_command_rest_empty_none.mp h
  · intro hi
    subst hi
    unfold parse_command
    rw [match_command_sp]
    dsimp only
    exact parse_command_rest_empty_none.mpr rfl

/-- C2 counterexample: `"10 FOO x"` has an unrecognized keyword followed
by a space, yet parsing fails (the parser demands a space at the keyword
position itself, and `'F' ≠ ' '`); and executing the `Empty`
(`Command::None`) command is not a no-op — it hits the catch-all
`panic!("Unrecognised command")` arm. -/
theorem unrecognized_keyword_counterexample :
    parse_line (("10 FOO x").toList) = .error ∧
    step { nodes := Node.link (10, Command.none) Node.none,
           current := Node.link (10, Command.none) Node.none,
           vars := [], output := [] } = .aborted .unrecognisedCommand :=
  ⟨by decide, by decide⟩

/-- C2 (amended): a line `number SPACE rest` parses to the `Empty`
command exactly when `rest` itself begins with a space (no keyword
matches and the mandatory space is the very next character), consuming
only that space and leaving the remainder of the line unparsed; a line
with a genuine unrecognized keyword such as `"10 FOO x"` is a parse
error; and executing `Empty` is not harmless — it fatally aborts via the
catch-all `panic!("Unrecognised command")`. -/
theorem empty_command_semantics :
    (∀ i r, parse_command i = .ok r Command.none ↔ i = ' ' :: r) ∧
    parse_line (("10  any rest").toList) =
      .ok (("any rest").toList) (10, Command.none) ∧
    (∀ (s : ExecState) (ln : Nat) (next : Node),
      s.current = Node.link (ln, Command.none) next →
      step s = .aborted .unrecognisedCommand) := by
  refine ⟨parse_command_none_iff, by decide, ?_⟩
  intro s ln next hcur
  unfold step
  rw [hcur]

theorem empty_command_semantics_witness :
    parse_command ((" stuff").toList) = .ok (("stuff").toList) Command.none ∧
    step { nodes := Node.none,
           current := Node.link (30, Command.none) Node.none,
           vars := [], output := [] } = .aborted .unrecognisedCommand :=
  ⟨(empty_command_semantics.1 _ _).mpr rfl,
    empty_command_semantics.2.2 _ 30 Node.none rfl⟩

/-!  ## C9: quoted-string round-trip -/

/-- The claim's input set: strings in which backslash and double-quote
characters occur only inside the escape pairs `\\` and `\"`. -/
inductive WellEscaped : List Char → Prop where
  | nil : WellEscaped []
  | chr {c : Char} {rest : List Char} : c ≠ '\\' → c ≠ '"' →
      WellEscaped rest → WellEscaped (c :: rest)
  | bs {rest : List Char} : WellEscaped rest →
      WellEscaped ('\\' :: '\\' :: rest)
  | qt {rest : List Char} : WellEscaped rest →
      WellEscaped ('\\' :: '"' :: rest)

/-- The unescaped form of a well-escaped source: each escape pair becomes
the escaped character. -/
def unescape : List Char → List Char
  | [] => []
  | [c] => [c]
  | c :: d :: rest =>
    if c = '\\' ∧ (d = '\\' ∨ d = '"') then d :: unescape rest
    else c :: unescape (d :: rest)

/-- Re-escaping a single character, from the claim's statement. -/
def escapeChar (c : Char) : List Char :=
  if c = '\\' then ['\\', '\\'] else if c = '"' then ['\\', '"'] else [c]

/-- Re-escaping a parsed string back to source bytes. -/
def escapeChars : List Char → List Char
  | [] => []
  | c :: rest => escapeChar c ++ escapeChars rest

theorem unescape_cons {c : Char} {rest : List Char} (h1 : c ≠ '\\') :
    unescape (c :: rest) = c :: unescape rest := by
  cases rest with
  | nil => rfl
  | cons d rest2 =>
    rw [show unescape (c :: d :: rest2) =
      (if c = '\\' ∧ (d = '\\' ∨ d = '"') then d :: unescape rest2
       else c :: unescape (d :: rest2)) from rfl]
    rw [if_neg]
    rintro ⟨hc, -⟩
    exact h1 hc

theorem pnoneOf_cons_ok {l : List Char} {c : Char} {r : List Char}
    (h : l.contains c = false) : pnoneOf l (c :: r) = .ok r c := by
  unfold pnoneOf
  simp at h
  simp [h]

theorem pnoneOf_cons_err {l : List Char} {c : Char} {r : List Char}
    (h : l.contains c = true) : pnoneOf l (c :: r) = .error := by
  unfold pnoneOf
  simp at h
  simp [h]

theorem transform_pair_bs {X : List Char} :
    palt2 (pvalue (['\\']) (ptag (['\\']))) (pvalue (['"']) (ptag (['"'])))
      ('\\' :: X) = .ok X ['\\'] := by
  unfold palt2 pvalue pmap
  rw [ptag_cons]

theorem transform_pair_qt {X : List Char} :
    palt2 (pvalue (['\\']) (ptag (['\\']))) (pvalue (['"']) (ptag (['"'])))
      ('"' :: X) = .ok X ['"'] := by
  unfold palt2 pvalue pmap
  rw [ptag_cons_ne (show '\\' ≠ '"' by decide)]
  dsimp only
  rw [ptag_cons]

/-- Running the `escaped_transform` body of `read_string` over a
well-escaped source followed by the closing quote: it consumes exactly
the source, stops at the quote, and accumulates the unescaped text —
provided at least one unit was consumed before the quote (`first` is only
allowed on nonempty sources; nom errors out otherwise). -/
theorem read_string_go_wellEscaped {w : List Char} (hw : WellEscaped w) :
    ∀ fuel acc first, w.length < fuel → (first = true → w ≠ []) →
      escapedTransformGo (pnoneOf (['\\', '"'])) '\\'
        (palt2 (pvalue (['\\']) (ptag (['\\'])))
          (pvalue (['"']) (ptag (['"'])))) fuel first acc (w ++ ['"']) =
        .ok ['"'] (acc ++ unescape w) := by
  induction hw with
  | nil =>
    intro fuel acc first hfuel hfirst
    cases fuel with
    | zero => omega
    | succ f =>
      cases first with
      | true => exact absurd rfl (fun h => hfirst h rfl)
      | false =>
        unfold escapedTransformGo
        simp only [List.nil_append]
        rw [show pnoneOf (['\\', '"']) (['"'] : List Char) = .error
          from rfl]
        dsimp only
        rw [if_neg (by decide), if_neg (by decide)]
        simp [unescape]
  | chr h1 h2 hrest ih =>
    intro fuel acc first hfuel hfirst
    cases fuel with
    | zero => simp at hfuel
    | succ f =>
      next c rest =>
        have hcont : (['\\', '"'] : List Char).contains c = false := by
          simp [List.contains_cons, h1, h2]
        unfold escapedTransformGo
        rw [List.cons_append]
        dsimp only
        rw [pnoneOf_cons_ok hcont]
        dsimp only
        rw [if_neg (by simp), if_neg (by simp)]
        rw [ih f (acc ++ [c]) false (by simp at hfuel; omega) (by simp)]
        simp [unescape_cons h1]
  | bs hrest ih =>
    intro fuel acc first hfuel hfirst
    cases fuel with
    | zero => simp at hfuel
    | succ f =>
      next rest =>
        unfold escapedTransformGo
        rw [List.cons_append, List.cons_append]
        dsimp only
        rw [pnoneOf_cons_err (by decide)]
        dsimp only
        rw [if_pos rfl, if_neg (by simp)]
        rw [transform_pair_bs]
        dsimp only
        rw [if_neg (by simp)]
        rw [ih f (acc ++ ['\\']) false (by simp at hfuel; omega) (by simp)]
        simp [show unescape ('\\' :: '\\' :: rest) = '\\' :: unescape rest
          from rfl]
  | qt hrest ih =>
    intro fuel acc first hfuel hfirst
    cases fuel with
    | zero => simp at hfuel
    | succ f =>
      next rest =>
        unfold escapedTransformGo
        rw [List.cons_append, List.cons_append]
        dsimp only
        rw [pnoneOf_cons_err (by decide)]
        dsimp only
        rw [if_pos rfl, if_neg (by simp)]
        rw [transform_pair_qt]
        dsimp only
        rw [if_neg (by simp)]
        rw [ih f (acc ++ ['"']) false (by simp at hfuel; omega) (by simp)]
        simp [show unescape ('\\' :: '"' :: rest) = '"' :: unescape rest
          from rfl]

theorem escapeChars_unescape {w : List Char} (hw : WellEscaped w) :
    escapeChars (unescape w) = w := by
  induction hw with
  | nil => rfl
  | chr h1 h2 hrest ih =>
    rw [unescape_cons h1]
    unfold escapeChars escapeChar
    rw [if_neg h1, if_neg h2, ih]
    rfl
  | bs hrest ih =>
    rw [show unescape ('\\' :: '\\' :: _) = '\\' :: unescape _ from rfl]
    unfold escapeChars escapeChar
    rw [if_pos rfl, ih]
    rfl
  | qt hrest ih =>
    rw [show unescape ('\\' :: '"' :: _) = '"' :: unescape _ from rfl]
    unfold escapeChars escapeChar
    rw [if_neg (by decide), if_pos rfl, ih]
    rfl

/-- C9 counterexample: the empty string is (vacuously) well-escaped, yet
`read_string` rejects the two-character source `""` — nom's
`escaped_transform` errors when it cannot consume at least one unit
before the closing quote — so parsing does not succeed on every
well-escaped string. -/
theorem read_string_empty_counterexample :
    WellEscaped [] ∧ read_string (("\"\"").toList) = .error :=
  ⟨WellEscaped.nil, by decide⟩

/-- C9 (amended): for every NONEMPTY string whose backslashes and quotes
occur only as the escape pairs `\\` and `\"`, parsing its quoted form
with `read_string` succeeds, consuming through the closing quote and
unescaping the body; re-escaping the parsed result reproduces the
original source bytes exactly.  (The empty body is the sole exception:
`read_string` rejects `""`.) -/
theorem read_string_roundtrip :
    ∀ w, WellEscaped w → w ≠ [] →
      read_string ('"' :: (w ++ ['"'])) = .ok [] (String.mk (unescape w)) ∧
      escapeChars (unescape w) = w := by
  intro w hw hne
  refine ⟨?_, escapeChars_unescape hw⟩
  unfold read_string pmap pdelimited
  rw [ptag_cons]
  dsimp only
  unfold escapedTransform
  rw [read_string_go_wellEscaped hw ((w ++ ['"']).length + 1) [] true
    (by simp only [List.length_append]; omega) (fun _ => hne)]
  dsimp only
  rw [ptag_cons]
  dsimp only
  rw [List.nil_append]

theorem read_string_roundtrip_witness :
    read_string (("\"H\\\"\"").toList) = .ok [] (String.mk (unescape (("H\\\"").toList))) ∧
    escapeChars (unescape (("H\\\"").toList)) = ("H\\\"").toList :=
  read_string_roundtrip (("H\\\"").toList)
    (WellEscaped.chr (by decide) (by decide)
      (WellEscaped.qt WellEscaped.nil)) (by decide)
